import Mathlib

/-!
Verification development for the aplay-ai-meeting-tool repository.

The repository is a browser meeting-recording tool.  Its interesting logic is
a dual-path audio-processing orchestrator (`src/enhanced-recorder.ts` and
`src/enhanced-api.ts`), a live-transcript accumulator plus recording lifecycle
(the inline page scripts, two variants), token-budget truncation for the
analysis prompt, speaker statistics, and share/copy formatters.

The embedding below translates those TypeScript functions into executable Lean
definitions.  JavaScript strings are modelled as `List Char` (one entry per
UTF-16 code unit; all characters appearing here are in the basic multilingual
plane, where the two notions agree), JS numbers used for times and percentages
as `ℚ` (the concrete values manipulated here are exactly representable
doubles), thrown JS exceptions as the `Except String` error component carrying
the message, and external collaborators (Firebase, the Mac-mini backend,
OpenRouter, the browser speech engine, `Math.random`) as explicit environment
records listing each call's outcome.
-/

/-! ## JavaScript helpers -/

/-- JS truthiness of an optional string (`undefined`/`null` and `""` are falsy). -/
def jsTruthyS : Option String → Bool
  | none => false
  | some s => s ≠ ""

/-- JS `a || d` for an optional string `a` and default `d`. -/
def jsOrD (a : Option String) (d : String) : String :=
  match a with
  | none => d
  | some s => if s = "" then d else s

/-! ## Data model (`enhanced-recorder.ts`) -/

/-- `TranscriptSegment` from `enhanced-recorder.ts`: a live-recognition
segment with the text, the `Date.now()` capture timestamp (ms) and an
optional confidence. -/
structure Seg where
  text : String
  timestamp : Int
  confidence : Option ℚ := none
deriving DecidableEq, Repr

/-- One element of the array built by `generateMockSpeakers` /
`transcribeWithBrowser`: a speaker-labelled segment with start/end seconds.
(`end` is a Lean keyword, so the field is named `endT`.) -/
structure MockSeg where
  speaker : String
  start : ℚ
  endT : ℚ
  text : String
deriving DecidableEq, Repr

/-! ## `generateMockSpeakers` (enhanced-recorder.ts, lines 436-460)

The loop keeps a current speaker and a running segment count; at every index
`cnt` with `cnt > 0 && cnt % 3 == 0` it toggles between `SPEAKER_00` and
`SPEAKER_01`, then emits a segment whose start is
`(seg.timestamp - recordingStartTime) / 1000` and whose end is that value
plus 5. -/

def toggleSpeaker (s : String) : String :=
  if s = "SPEAKER_00" then "SPEAKER_01" else "SPEAKER_00"

def mockLoop (rst : Int) : List Seg → String → Nat → List MockSeg
  | [], _, _ => []
  | seg :: rest, cur, cnt =>
    let cur' := if 0 < cnt ∧ cnt % 3 = 0 then toggleSpeaker cur else cur
    { speaker := cur',
      start := ((seg.timestamp : ℚ) - (rst : ℚ)) / 1000,
      endT := ((seg.timestamp : ℚ) - (rst : ℚ)) / 1000 + 5,
      text := seg.text } :: mockLoop rst rest cur' (cnt + 1)

/-- `generateMockSpeakers(transcript)` with the instance field
`recordingStartTime` made explicit. -/
def generateMockSpeakers (rst : Int) (transcript : List Seg) : List MockSeg :=
  mockLoop rst transcript "SPEAKER_00" 0

/-- Closed-form speaker label of position `i` under the every-3 round-robin:
blocks of three segments alternate between the two labels. -/
def speakerAt (i : Nat) : String :=
  if (i / 3) % 2 = 0 then "SPEAKER_00" else "SPEAKER_01"

/-- The speaker the loop holds when entering iteration `c`. -/
def entrySpeaker (c : Nat) : String :=
  if c = 0 then "SPEAKER_00" else speakerAt (c - 1)

lemma toggle_entry_eq_speakerAt (c : Nat) :
    (if 0 < c ∧ c % 3 = 0 then toggleSpeaker (entrySpeaker c) else entrySpeaker c)
      = speakerAt c := by
  rcases Nat.eq_zero_or_pos c with h0 | hpos
  · subst h0; simp [entrySpeaker, speakerAt]
  · have hne : c ≠ 0 := Nat.pos_iff_ne_zero.mp hpos
    by_cases h3 : c % 3 = 0
    · have hpar : ((c - 1) / 3) % 2 = 0 ↔ ¬ (c / 3) % 2 = 0 := by omega
      by_cases hp : ((c - 1) / 3) % 2 = 0
      · simp [hpos, h3, entrySpeaker, hne, speakerAt, hp, toggleSpeaker, hpar.mp hp]
      · have h2 : (c / 3) % 2 = 0 := by omega
        simp [hpos, h3, entrySpeaker, hne, speakerAt, hp, toggleSpeaker, h2]
    · have hdiv : (c - 1) / 3 = c / 3 := by omega
      simp [entrySpeaker, speakerAt, h3, hne, hdiv]

lemma mockLoop_speakers (rst : Int) (tr : List Seg) (c : Nat) :
    (mockLoop rst tr (entrySpeaker c) c).map MockSeg.speaker
      = (List.range tr.length).map (fun i => speakerAt (c + i)) := by
  induction tr generalizing c with
  | nil => simp [mockLoop]
  | cons seg rest ih =>
    have hstep := toggle_entry_eq_speakerAt c
    have hnext : entrySpeaker (c + 1) = speakerAt c := by
      simp [entrySpeaker]
    have hfun : ((fun i => speakerAt (c + i)) ∘ Nat.succ)
        = (fun i => speakerAt (c + 1 + i)) := by
      funext i
      simp only [Function.comp_apply]
      congr 1
      omega
    simp only [mockLoop, hstep, List.map_cons, List.length_cons, List.range_succ_eq_map,
      List.map_map, List.cons.injEq, hfun]
    refine ⟨by simp, ?_⟩
    rw [← hnext, ih (c + 1)]

/-- The speaker labels produced by `generateMockSpeakers` depend on segment
position alone: segment `i` gets `speakerAt i`. -/
lemma generateMockSpeakers_labels (rst : Int) (tr : List Seg) :
    (generateMockSpeakers rst tr).map MockSeg.speaker
      = (List.range tr.length).map speakerAt := by
  have h := mockLoop_speakers rst tr 0
  simpa [generateMockSpeakers, entrySpeaker] using h

/-! ## `transcribeWithBrowser` (enhanced-api.ts, lines 202-260)

The degraded path of the API client builds segments from the final results of
a one-shot recognition run; after pushing each segment it switches the current
speaker to the other label when `Math.random() > 0.7`.  The random draws are
modelled as an explicit list of booleans (the outcomes of the comparison),
consumed one per final result. -/

structure BrowserRes where
  isFinal : Bool
  text : String
deriving DecidableEq, Repr

def browserLoop : List BrowserRes → Nat → String → List Bool → List MockSeg
  | [], _, _, _ => []
  | r :: rest, i, cur, rands =>
    if r.isFinal then
      let seg : MockSeg :=
        { speaker := cur, start := 3 * (i : ℚ), endT := 3 * ((i : ℚ) + 1),
          text := r.text.trim }
      let b := rands.headD false
      seg :: browserLoop rest (i + 1) (if b then toggleSpeaker cur else cur) rands.tail
    else
      browserLoop rest (i + 1) cur rands

/-- The segment list resolved by `transcribeWithBrowser` for the final event,
given the outcomes of the `Math.random() > 0.7` draws. -/
def transcribeWithBrowserSegs (results : List BrowserRes) (rands : List Bool) :
    List MockSeg :=
  browserLoop results 0 "SPEAKER_00" rands

lemma mockLoop_endT (rst : Int) (tr : List Seg) (cur : String) (cnt : Nat) :
    ∀ seg ∈ mockLoop rst tr cur cnt, seg.endT = seg.start + 5 := by
  induction tr generalizing cur cnt with
  | nil => intro seg h; simp [mockLoop] at h
  | cons a rest ih =>
    intro seg h
    simp only [mockLoop, List.mem_cons] at h
    rcases h with h | h
    · subst h; rfl
    · exact ih _ _ seg h

lemma sum_durations_of_const (l : List MockSeg)
    (h : ∀ seg ∈ l, seg.endT = seg.start + 5) :
    (l.map (fun s => s.endT - s.start)).sum = 5 * l.length := by
  induction l with
  | nil => simp
  | cons a rest ih =>
    have ha : a.endT = a.start + 5 := h a (by simp)
    have hr := ih (fun seg hs => h seg (by simp [hs]))
    simp only [List.map_cons, List.sum_cons, hr, List.length_cons, ha]
    push_cast
    ring

/-- C10: every synthetic segment produced by `generateMockSpeakers` ends
exactly 5 seconds after it starts, so each label's total speaking duration is
5 seconds times its segment count, independent of audio content. -/
theorem C10_mock_durations (rst : Int) (tr : List Seg) :
    (∀ seg ∈ generateMockSpeakers rst tr, seg.endT = seg.start + 5) ∧
    ∀ label : String,
      (((generateMockSpeakers rst tr).filter (fun s => s.speaker = label)).map
          (fun s => s.endT - s.start)).sum
        = 5 * ((generateMockSpeakers rst tr).filter (fun s => s.speaker = label)).length := by
  refine ⟨mockLoop_endT rst tr _ _, fun label => ?_⟩
  refine sum_durations_of_const _ (fun seg hs => ?_)
  exact mockLoop_endT rst tr _ _ seg (List.mem_of_mem_filter hs)

/-- Witness for C10 at a concrete one-segment transcript. -/
theorem C10_mock_durations_witness :
    (((generateMockSpeakers 0 [⟨"a", 0, none⟩]).filter
        (fun s => s.speaker = "SPEAKER_00")).map (fun s => s.endT - s.start)).sum
      = 5 * ((generateMockSpeakers 0 [⟨"a", 0, none⟩]).filter
        (fun s => s.speaker = "SPEAKER_00")).length :=
  (C10_mock_durations 0 [⟨"a", 0, none⟩]).2 "SPEAKER_00"

/-- C5 counterexample: in the API client's degraded path
(`transcribeWithBrowser`), the same two-final-result recognition input yields
different speaker labels at position 1 depending on the `Math.random() > 0.7`
draws, so the synthetic label of a segment is not a fixed deterministic
function of its position, and no switch happens every 3 segments. -/
theorem C5_counterexample :
    (transcribeWithBrowserSegs [⟨true, "a"⟩, ⟨true, "b"⟩] [true]).map MockSeg.speaker
        = ["SPEAKER_00", "SPEAKER_01"] ∧
    (transcribeWithBrowserSegs [⟨true, "a"⟩, ⟨true, "b"⟩] [false]).map MockSeg.speaker
        = ["SPEAKER_00", "SPEAKER_00"] ∧
    (transcribeWithBrowserSegs [⟨true, "a"⟩, ⟨true, "b"⟩] [true]).map MockSeg.speaker
      ≠ (transcribeWithBrowserSegs [⟨true, "a"⟩, ⟨true, "b"⟩] [false]).map MockSeg.speaker := by
  refine ⟨by decide, by decide, by decide⟩

/-- C5 (amended): the recorder-variant degraded path (`generateMockSpeakers`)
does assign labels by the deterministic every-3 round robin, so each label is
a function of its position only (`speakerAt`), and `speakerAt` switches to the
other label exactly every 3 positions; the API-client browser fallback instead
switches randomly after each final result. -/
theorem C5_roundRobin_labels (rst : Int) (tr : List Seg) :
    (generateMockSpeakers rst tr).map MockSeg.speaker
        = (List.range tr.length).map speakerAt ∧
    ∀ i : Nat, speakerAt (i + 3) = toggleSpeaker (speakerAt i) := by
  refine ⟨generateMockSpeakers_labels rst tr, fun i => ?_⟩
  have hdiv : (i + 3) / 3 = i / 3 + 1 := by omega
  by_cases hp : (i / 3) % 2 = 0
  · have h1 : (i / 3 + 1) % 2 = 1 := by omega
    simp [speakerAt, hp, hdiv, h1, toggleSpeaker]
  · have h1 : (i / 3 + 1) % 2 = 0 := by omega
    simp [speakerAt, hp, hdiv, h1, toggleSpeaker]

/-! ## Live Transcript Accumulator (part_000, lines 839-855 and 891-905)

`recognition.onresult` walks the event's results from the module-level
watermark `lastProcessedResultIndex` upward; final results are appended to the
event's `finalTranscript` and advance the watermark to `index + 1`; interim
results are collected into `interimTranscript` without moving the watermark.
`updateTranscript` then appends `finalTranscript + ' '` to the module-level
confirmed buffer `transcriptText` when `finalTranscript` is non-empty. -/

/-- One entry of a recognition event's `results` array. -/
structure RecResult where
  isFinal : Bool
  text : String
deriving DecidableEq, Repr

/-- Accumulator state: the confirmed buffer `transcriptText` and the watermark
`lastProcessedResultIndex`. -/
structure AccState where
  transcriptText : String
  lastIdx : Nat
deriving DecidableEq, Repr

/-- The `for (let i = lastProcessedResultIndex; ...)` loop of the part_000
handler, walking the results with their absolute index `i`: it returns the
event's `finalTranscript`, `interimTranscript` and the final watermark.  The
running watermark never exceeds the next index, so comparing against it is
the same as comparing against the loop's start value. -/
def consumeResults : List RecResult → Nat → Nat → String × String × Nat
  | [], _, last => ("", "", last)
  | r :: rest, i, last =>
    if i < last then consumeResults rest (i + 1) last
    else if r.isFinal then
      let p := consumeResults rest (i + 1) (i + 1)
      (r.text ++ p.1, p.2.1, p.2.2)
    else
      let p := consumeResults rest (i + 1) last
      (p.1, r.text ++ p.2.1, p.2.2)

/-- The part_000 `onresult` handler followed by `updateTranscript`, restricted
to its effect on the accumulator state. -/
def onresult (s : AccState) (results : List RecResult) : AccState :=
  let p := consumeResults results 0 s.lastIdx
  { transcriptText := if p.1 ≠ "" then s.transcriptText ++ p.1 ++ " " else s.transcriptText,
    lastIdx := p.2.2 }

/-- part_000 `startRecording` (lines 918-921): resets the confirmed buffer and
the watermark. -/
def startAcc : AccState := { transcriptText := "", lastIdx := 0 }

/-- part_000 `stopRecording` (lines 1021-1022): resets the watermark
(`lastProcessedResultIndex = 0`) but leaves the confirmed buffer alone. -/
def stopAcc (s : AccState) : AccState := { s with lastIdx := 0 }

/-- Spec-side view: the in-order concatenation of the texts of the final
results at indices `≥ k`. -/
def joinFinals (k : Nat) (rs : List RecResult) : String :=
  (((rs.drop k).filter (fun r => r.isFinal)).map (fun r => r.text)).foldr
    (fun a b => a ++ b) ""

lemma consume_skip (r : RecResult) (rest : List RecResult) (i k : Nat) (h : i < k) :
    consumeResults (r :: rest) i k = consumeResults rest (i + 1) k := by
  simp [consumeResults, h]

lemma consume_final (r : RecResult) (rest : List RecResult) (i k : Nat)
    (h : ¬ i < k) (hf : r.isFinal = true) :
    consumeResults (r :: rest) i k
      = (r.text ++ (consumeResults rest (i + 1) (i + 1)).1,
         (consumeResults rest (i + 1) (i + 1)).2.1,
         (consumeResults rest (i + 1) (i + 1)).2.2) := by
  simp [consumeResults, h, hf]

lemma consume_interim (r : RecResult) (rest : List RecResult) (i k : Nat)
    (h : ¬ i < k) (hf : r.isFinal = false) :
    consumeResults (r :: rest) i k
      = ((consumeResults rest (i + 1) k).1,
         r.text ++ (consumeResults rest (i + 1) k).2.1,
         (consumeResults rest (i + 1) k).2.2) := by
  simp [consumeResults, h, hf]

lemma consumeResults_final_eq (rs : List RecResult) :
    ∀ i k, (consumeResults rs i k).1 = joinFinals (k - i) rs := by
  induction rs with
  | nil => intro i k; simp [consumeResults, joinFinals]
  | cons r rest ih =>
    intro i k
    by_cases hik : i < k
    · have hd : (r :: rest).drop (k - i) = rest.drop (k - (i + 1)) := by
        have h1 : k - i = (k - (i + 1)) + 1 := by omega
        rw [h1]
        simp
      rw [consume_skip r rest i k hik, ih (i + 1) k]
      simp only [joinFinals, hd]
    · have hki : k - i = 0 := by omega
      rcases Bool.eq_false_or_eq_true r.isFinal with hf | hf
      · rw [consume_final r rest i k hik hf, ih (i + 1) (i + 1)]
        have h1 : (i + 1) - (i + 1) = 0 := by omega
        simp [joinFinals, hki, h1, hf]
      · rw [consume_interim r rest i k hik hf, ih (i + 1) k]
        have h1 : k - (i + 1) = 0 := by omega
        simp [joinFinals, hki, h1, hf]

lemma consumeResults_mono (rs : List RecResult) :
    ∀ i k, k ≤ (consumeResults rs i k).2.2 := by
  induction rs with
  | nil => intro i k; simp [consumeResults]
  | cons r rest ih =>
    intro i k
    by_cases hik : i < k
    · rw [consume_skip r rest i k hik]; exact ih (i + 1) k
    · rcases Bool.eq_false_or_eq_true r.isFinal with hf | hf
      · rw [consume_final r rest i k hik hf]
        have := ih (i + 1) (i + 1)
        simp only []
        omega
      · rw [consume_interim r rest i k hik hf]; exact ih (i + 1) k

lemma consumeResults_rerun_fst (rs : List RecResult) :
    ∀ i k, (consumeResults rs i (consumeResults rs i k).2.2).1 = ""
      ∧ (consumeResults rs i (consumeResults rs i k).2.2).2.2
        = (consumeResults rs i k).2.2 := by
  induction rs with
  | nil => intro i k; simp [consumeResults]
  | cons r rest ih =>
    intro i k
    by_cases hik : i < k
    · have hk2 : k ≤ (consumeResults rest (i + 1) k).2.2 := consumeResults_mono _ _ _
      rw [consume_skip r rest i k hik]
      rw [consume_skip r rest i _ (by omega)]
      exact ih (i + 1) k
    · rcases Bool.eq_false_or_eq_true r.isFinal with hf | hf
      · rw [consume_final r rest i k hik hf]
        have hk2 : i + 1 ≤ (consumeResults rest (i + 1) (i + 1)).2.2 :=
          consumeResults_mono _ _ _
        rw [consume_skip r rest i _ (by dsimp only; omega)]
        dsimp only
        exact ih (i + 1) (i + 1)
      · rw [consume_interim r rest i k hik hf]
        by_cases hik2 : i < (consumeResults rest (i + 1) k).2.2
        · rw [consume_skip r rest i _ hik2]
          exact ih (i + 1) k
        · rw [consume_interim r rest i _ hik2 hf]
          exact ⟨(ih (i + 1) k).1, (ih (i + 1) k).2⟩

lemma onresult_buffer (s : AccState) (rs : List RecResult) :
    (onresult s rs).transcriptText
      = s.transcriptText
        ++ (if joinFinals s.lastIdx rs = "" then "" else joinFinals s.lastIdx rs ++ " ") := by
  have h := consumeResults_final_eq rs 0 s.lastIdx
  simp only [Nat.sub_zero] at h
  by_cases he : joinFinals s.lastIdx rs = ""
  · simp [onresult, h, he]
  · simp [onresult, h, he, String.append_assoc]

lemma onresult_lastIdx_mono (s : AccState) (rs : List RecResult) :
    s.lastIdx ≤ (onresult s rs).lastIdx := by
  simpa [onresult] using consumeResults_mono rs 0 s.lastIdx

lemma onresult_idem (s : AccState) (rs : List RecResult) :
    onresult (onresult s rs) rs = onresult s rs := by
  have h := consumeResults_rerun_fst rs 0 s.lastIdx
  simp [onresult, h.1, h.2]

/-- C3 (amended, part_000 variant): the part_000 accumulator appends exactly
the in-order concatenation of the final results past the watermark (plus one
separating space per non-empty batch), never moves the watermark backwards,
and redelivering the same event is a no-op (dedup).  The part_001 variant has
no watermark and violates dedup (see its counterexample). -/
theorem C3_accumulator_dedup (s : AccState) (rs : List RecResult) :
    (onresult s rs).transcriptText
        = s.transcriptText
          ++ (if joinFinals s.lastIdx rs = "" then "" else joinFinals s.lastIdx rs ++ " ") ∧
    s.lastIdx ≤ (onresult s rs).lastIdx ∧
    onresult (onresult s rs) rs = onresult s rs :=
  ⟨onresult_buffer s rs, onresult_lastIdx_mono s rs, onresult_idem s rs⟩

/-! ## part_001 `recognition.onresult` (lines 63-77)

This variant walks `event.results` from the last index down to 0 with no
watermark, prepending every final result's text to the event's
`finalTranscript` — i.e. it rebuilds the concatenation of all final results
of the event, already-consumed or not — and then appends it to the buffer. -/

/-- The part_001 result loop: iterating indices high-to-low with
`finalTranscript = text + finalTranscript` yields the in-order concatenation
over the whole array, which this forward recursion computes. -/
def loop001 : List RecResult → String × String
  | [] => ("", "")
  | r :: rest =>
    let p := loop001 rest
    if r.isFinal then (r.text ++ p.1, p.2) else (p.1, r.text ++ p.2)

/-- The part_001 handler's effect on the confirmed buffer. -/
def onresult001 (buffer : String) (rs : List RecResult) : String :=
  let p := loop001 rs
  if p.1 ≠ "" then buffer ++ p.1 ++ " " else buffer

/-- C3 counterexample: the part_001 accumulator variant (cited by the claim)
has no `lastConsumedIndex` watermark; redelivering the same single-final-result
event re-appends the already-consumed text, so the buffer is not the
watermark-deduplicated concatenation the claim asserts.  The part_000
watermark variant on the same redelivery keeps the buffer at `"a "`. -/
theorem C3_counterexample :
    onresult001 (onresult001 "" [⟨true, "a"⟩]) [⟨true, "a"⟩] = "a a " ∧
    onresult001 (onresult001 "" [⟨true, "a"⟩]) [⟨true, "a"⟩]
      ≠ onresult001 "" [⟨true, "a"⟩] ∧
    (onresult (onresult startAcc [⟨true, "a"⟩]) [⟨true, "a"⟩]).transcriptText = "a " := by
  refine ⟨by decide, by decide, by decide⟩

/-- C8 counterexample: part_000 `stopRecording` resets the watermark
`lastProcessedResultIndex` to 0 (line 1022), so stopping a recording does
change the accumulator state, contrary to the claim that resets happen only
at session start. -/
theorem C8_counterexample :
    stopAcc ⟨"hello ", 3⟩ ≠ (⟨"hello ", 3⟩ : AccState) ∧
    (stopAcc ⟨"hello ", 3⟩).lastIdx = 0 ∧
    (stopAcc ⟨"hello ", 3⟩).transcriptText = "hello " := by
  refine ⟨by decide, by decide, by decide⟩

/-- C8 (amended): starting a recording resets both the confirmed buffer and
the watermark; stopping a recording resets the watermark (but not the
buffer); processing recognition events never resets either — the buffer only
grows and the watermark never decreases. -/
theorem C8_reset_points :
    startAcc = ({ transcriptText := "", lastIdx := 0 } : AccState) ∧
    (∀ s : AccState, stopAcc s = { transcriptText := s.transcriptText, lastIdx := 0 }) ∧
    (∀ (s : AccState) (rs : List RecResult),
      (∃ t, (onresult s rs).transcriptText = s.transcriptText ++ t) ∧
      s.lastIdx ≤ (onresult s rs).lastIdx) := by
  refine ⟨rfl, fun s => rfl, fun s rs => ⟨⟨_, onresult_buffer s rs⟩, onresult_lastIdx_mono s rs⟩⟩

/-! ## Processing Orchestrator (enhanced-recorder.ts, lines 249-460)

`processAudio` probes Mac-mini availability: when available it runs the full
path `processWithMacMini` (upload → job → send → poll → optional OpenRouter
analysis enhancement); any exception inside that path is caught and the
degraded path `processWithOpenRouter` runs once; the degraded path itself
catches everything and returns a `failed` result.  External calls are
modelled by an environment giving each call's outcome; a thrown exception is
an `Except.error` carrying its message. -/

inductive RStatus
  | completed
  | failed
  | processing
deriving DecidableEq, Repr

/-- `ProcessingResult` from `enhanced-recorder.ts`. -/
structure ProcessingResult where
  status : RStatus
  transcript : Option (List Seg) := none
  analysis : Option String := none
  speakers : Option (List MockSeg) := none
  jobId : Option String := none
  error : Option String := none
deriving DecidableEq, Repr

/-- The record polled from Firebase (`pollForResult`). -/
structure PollResult where
  status : String
  analysis : Option String := none
  enhanced_transcript : Option (List Seg) := none
  speakers : Option (List MockSeg) := none
  error : Option String := none

/-- Outcomes of the orchestrator's external calls.  `Except.error msg` models
the JS call throwing an `Error` with that message; `Option` models
`null`/`undefined` returns. -/
structure OrchEnv where
  checkMacMini : Except String Bool
  firebaseAvail : Bool
  upload : Except String (Option String)
  createJob : Except String (Option String)
  send : Except String Bool
  poll : Except String (Option PollResult)
  analyze : Except String (Option String)

/-- `analyzeWithOpenRouter` (lines 413-431): returns the analysis when the
response carries a truthy `analysis` field, otherwise throws. -/
def analyzeWithOpenRouter (env : OrchEnv) : Except String String :=
  match env.analyze with
  | .error e => .error e
  | .ok r => if jsTruthyS r then .ok (jsOrD r "") else .error "OpenRouter 分析失敗"

/-- The `try` body of `processWithOpenRouter` (lines 370-399). -/
def openRouterBody (env : OrchEnv) (rst : Int) (transcript : List Seg) :
    Except String ProcessingResult :=
  if transcript.length = 0 then
    .ok { status := .failed, error := some "無轉錄文字可供分析" }
  else
    match analyzeWithOpenRouter env with
    | .error e => .error e
    | .ok analysis =>
      .ok { status := .completed, transcript := some transcript,
            analysis := some analysis,
            speakers := some (generateMockSpeakers rst transcript) }

/-- `processWithOpenRouter` (lines 370-408): its catch converts any thrown
error into a `failed` result, so it always resolves. -/
def processWithOpenRouter (env : OrchEnv) (rst : Int) (transcript : List Seg) :
    ProcessingResult :=
  match openRouterBody env rst transcript with
  | .ok r => r
  | .error e => { status := .failed, error := some e }

/-- The `try` body of `processWithMacMini` (lines 290-356): the full backend
path.  Any `Except.error` models an exception escaping the `try`. -/
def macMiniCore (env : OrchEnv) (transcript : List Seg) (jobId : String) :
    Except String ProcessingResult :=
  match env.upload with
  | .error e => .error e
  | .ok audioUrl =>
    if ¬ jsTruthyS audioUrl then .error "音頻上傳失敗"
    else
      match env.createJob with
      | .error e => .error e
      | .ok taskId =>
        if ¬ jsTruthyS taskId then .error "任務創建失敗"
        else
          match env.send with
          | .error e => .error e
          | .ok sent =>
            if ¬ sent then .error "發送到 Mac Mini 失敗"
            else
              match env.poll with
              | .error e => .error e
              | .ok none => .error "處理超時或失敗"
              | .ok (some res) =>
                if res.status = "completed" then
                  match (if ¬ jsTruthyS res.analysis ∧ 0 < transcript.length then
                           (analyzeWithOpenRouter env).map some
                         else .ok res.analysis) with
                  | .error e => .error e
                  | .ok analysis =>
                    .ok { status := .completed,
                          transcript := some (res.enhanced_transcript.getD transcript),
                          speakers := res.speakers, analysis := analysis,
                          jobId := some jobId }
                else .error (jsOrD res.error "處理失敗")

/-- Which processing paths an invocation enters, in order. -/
inductive PathEv
  | full
  | degraded
deriving DecidableEq, Repr

/-- `processWithMacMini` (lines 284-365) with its path trace: the catch block
falls back to `processWithOpenRouter` exactly once. -/
def processWithMacMini (env : OrchEnv) (rst : Int) (transcript : List Seg)
    (jobId : String) : ProcessingResult × List PathEv :=
  match macMiniCore env transcript jobId with
  | .ok r => (r, [PathEv.full])
  | .error _ => (processWithOpenRouter env rst transcript, [PathEv.full, PathEv.degraded])

/-- `processAudio` (lines 249-279) with its path trace.  The status probe can
itself throw, which the outer catch converts to a `failed` result without
entering either path. -/
def processAudio (env : OrchEnv) (rst : Int) (transcript : List Seg)
    (jobId : String) : ProcessingResult × List PathEv :=
  match env.checkMacMini with
  | .error e => ({ status := .failed, error := some e, jobId := some jobId }, [])
  | .ok avail =>
    if avail ∧ env.firebaseAvail then processWithMacMini env rst transcript jobId
    else (processWithOpenRouter env rst transcript, [PathEv.degraded])

/-! ## API-client orchestrator (`enhanced-api.ts`, lines 75-197)

`EnhancedAPIClient.processAudio` tries the backend path; any exception falls
back to `processWithBrowser` once.  Unlike the recorder orchestrator, the
browser path re-throws (`瀏覽器處理失敗: ...`) on failure, so a degraded-path
failure escapes `processAudio` as an exception instead of resolving to a
response. -/

/-- `ProcessingResponse` of `enhanced-api.ts` (the fields relevant here). -/
structure ApiResponse where
  job_id : String
  status : String
  transcript : Option (List MockSeg) := none
  speaker_count : Option Nat := none
  analysis : Option String := none
deriving DecidableEq, Repr

/-- Outcomes of the API-client's external calls. -/
structure ApiEnv where
  backendResult : Except String ApiResponse
  browserTranscribe : Except String (List MockSeg)
  openRouterKey : String
  browserAnalyze : Except String String
  nowTag : String

/-- `processWithBrowser` (lines 163-197): browser transcription, optional
OpenRouter analysis, and a catch that re-throws with a wrapped message. -/
def apiProcessWithBrowser (env : ApiEnv) (lang analysisType : String) :
    Except String ApiResponse :=
  match env.browserTranscribe with
  | .error e => .error ("瀏覽器處理失敗: " ++ e)
  | .ok segs =>
    match (if env.openRouterKey ≠ "" then env.browserAnalyze
           else .ok "無法進行 AI 分析：缺少 OpenRouter API Key") with
    | .error e => .error ("瀏覽器處理失敗: " ++ e)
    | .ok analysis =>
      .ok { job_id := "browser_" ++ env.nowTag, status := "completed",
            transcript := some segs,
            speaker_count := some ((segs.map MockSeg.speaker).dedup.length),
            analysis := some analysis }

/-- `EnhancedAPIClient.processAudio` (lines 75-115) with its path trace. -/
def apiProcessAudio (env : ApiEnv) (useBackend : Bool) (lang analysisType : String) :
    Except String ApiResponse × List PathEv :=
  if useBackend then
    match env.backendResult with
    | .ok r => (.ok r, [PathEv.full])
    | .error _ =>
      (apiProcessWithBrowser env lang analysisType, [PathEv.full, PathEv.degraded])
  else (apiProcessWithBrowser env lang analysisType, [PathEv.degraded])

lemma processWithOpenRouter_failed_error (env : OrchEnv) (rst : Int) (tr : List Seg) :
    (processWithOpenRouter env rst tr).status = .failed →
      (processWithOpenRouter env rst tr).error ≠ none := by
  unfold processWithOpenRouter openRouterBody
  split
  case _ r h =>
    split at h
    · intro _
      simp only [Except.ok.injEq] at h
      subst h
      simp
    · split at h
      · simp at h
      · intro hst
        simp only [Except.ok.injEq] at h
        subst h
        simp at hst
  case _ e h =>
    intro _
    simp

lemma processWithOpenRouter_status (env : OrchEnv) (rst : Int) (tr : List Seg) :
    (processWithOpenRouter env rst tr).status = .completed ∨
      (processWithOpenRouter env rst tr).status = .failed := by
  unfold processWithOpenRouter openRouterBody
  split
  case _ r h =>
    split at h
    · simp only [Except.ok.injEq] at h; subst h; right; rfl
    · split at h
      · simp at h
      · simp only [Except.ok.injEq] at h; subst h; left; rfl
  case _ e h => right; rfl

lemma macMiniCore_ok_completed (env : OrchEnv) (tr : List Seg) (jobId : String)
    (r : ProcessingResult) (h : macMiniCore env tr jobId = .ok r) :
    r.status = .completed ∧ r.error = none := by
  unfold macMiniCore at h
  repeat' split at h
  all_goals simp_all
  all_goals (cases h; exact ⟨rfl, rfl⟩)

/-- C1 counterexample: in the API-client orchestrator, with a backend that
throws and a browser path whose transcription throws, the degraded path runs
exactly once but its failure escapes `processAudio` as a thrown exception —
it is not reported in a returned result, contrary to the claim. -/
theorem C1_counterexample :
    (apiProcessAudio
        { backendResult := .error "後端處理失敗 (500): err",
          browserTranscribe := .error "語音識別錯誤: network",
          openRouterKey := "k", browserAnalyze := .ok "x", nowTag := "0" }
        true "zh" "會議摘要").2 = [PathEv.full, PathEv.degraded] ∧
    (apiProcessAudio
        { backendResult := .error "後端處理失敗 (500): err",
          browserTranscribe := .error "語音識別錯誤: network",
          openRouterKey := "k", browserAnalyze := .ok "x", nowTag := "0" }
        true "zh" "會議摘要").1
      = .error "瀏覽器處理失敗: 語音識別錯誤: network" := by
  refine ⟨by decide, by rfl⟩

/-- C1 (amended): in both orchestrator variants a full-path failure triggers
the degraded path exactly once and the full path is never retried in that
invocation, and a degraded-path failure is terminal (no further fallback); in
the recorder variant it is reported in the returned `failed` result with an
error message, while in the API-client variant it propagates out of
`processAudio` as a thrown exception. -/
theorem C1_single_fallback :
    (∀ (env : OrchEnv) (rst : Int) (tr : List Seg) (jobId err : String),
      env.checkMacMini = .ok true → env.firebaseAvail = true →
      macMiniCore env tr jobId = .error err →
      (processAudio env rst tr jobId).2 = [PathEv.full, PathEv.degraded] ∧
      (processAudio env rst tr jobId).1 = processWithOpenRouter env rst tr ∧
      ((processWithOpenRouter env rst tr).status = .failed →
        (processAudio env rst tr jobId).1.status = .failed ∧
        (processAudio env rst tr jobId).1.error ≠ none)) ∧
    (∀ (aenv : ApiEnv) (lang atype err : String),
      aenv.backendResult = .error err →
      (apiProcessAudio aenv true lang atype).2 = [PathEv.full, PathEv.degraded] ∧
      (apiProcessAudio aenv true lang atype).1
        = apiProcessWithBrowser aenv lang atype) := by
  constructor
  · intro env rst tr jobId err hchk hfb hfail
    have hpa : processAudio env rst tr jobId
        = (processWithOpenRouter env rst tr, [PathEv.full, PathEv.degraded]) := by
      unfold processAudio processWithMacMini
      rw [hchk, hfail]
      simp [hfb]
    refine ⟨by rw [hpa], by rw [hpa], fun hf => ?_⟩
    rw [hpa]
    exact ⟨hf, processWithOpenRouter_failed_error env rst tr hf⟩
  · intro aenv lang atype err hfail
    unfold apiProcessAudio
    rw [hfail]
    simp

/-- Concrete environment whose full path throws at the upload step. -/
def envFullFails : OrchEnv :=
  { checkMacMini := .ok true, firebaseAvail := true,
    upload := .error "網路錯誤",
    createJob := .ok (some "t"), send := .ok true, poll := .ok none,
    analyze := .ok (some "分析結果") }

/-- Witness for C1 at the concrete environment `envFullFails`. -/
theorem C1_single_fallback_witness :
    macMiniCore envFullFails [⟨"你好", 0, none⟩] "job" = .error "網路錯誤" ∧
    (processAudio envFullFails 0 [⟨"你好", 0, none⟩] "job").2
      = [PathEv.full, PathEv.degraded] :=
  ⟨by rfl,
   (C1_single_fallback.1 envFullFails 0 [⟨"你好", 0, none⟩] "job" "網路錯誤"
      rfl rfl (by rfl)).1⟩

/-- C2: the recorder orchestrator's `processAudio` always resolves to a
`ProcessingResult` — every branch is wrapped in a catch, which is why
`processAudio` is total into `ProcessingResult` rather than
`Except String ProcessingResult` — its status is always `completed` or
`failed` (never `processing`), every `failed` result carries an error
message, and whenever the degraded path runs with no accumulated transcript
the result is the `failed` no-transcript message. -/
theorem C2_orchestrator_resolves (env : OrchEnv) (rst : Int) (tr : List Seg)
    (jobId : String) :
    ((processAudio env rst tr jobId).1.status = .completed ∨
      (processAudio env rst tr jobId).1.status = .failed) ∧
    ((processAudio env rst tr jobId).1.status = .failed →
      (processAudio env rst tr jobId).1.error ≠ none) ∧
    (PathEv.degraded ∈ (processAudio env rst tr jobId).2 → tr = [] →
      (processAudio env rst tr jobId).1.status = .failed ∧
      (processAudio env rst tr jobId).1.error = some "無轉錄文字可供分析") := by
  have hempty : ∀ e r, processWithOpenRouter e r ([] : List Seg)
      = { status := .failed, error := some "無轉錄文字可供分析" } := by
    intro e r
    rfl
  unfold processAudio
  cases hchk : env.checkMacMini with
  | error e => exact ⟨Or.inr rfl, fun _ => by simp, by simp⟩
  | ok avail =>
    by_cases hav : avail ∧ env.firebaseAvail
    · simp only [if_pos hav]
      unfold processWithMacMini
      cases hcore : macMiniCore env tr jobId with
      | ok r =>
        have h := macMiniCore_ok_completed env tr jobId r hcore
        refine ⟨Or.inl h.1, fun hf => ?_, by simp⟩
        rw [h.1] at hf
        cases hf
      | error e =>
        refine ⟨processWithOpenRouter_status env rst tr,
          processWithOpenRouter_failed_error env rst tr, fun _ htr => ?_⟩
        subst htr
        rw [hempty env rst]
        exact ⟨rfl, rfl⟩
    · simp only [if_neg hav]
      refine ⟨processWithOpenRouter_status env rst tr,
        processWithOpenRouter_failed_error env rst tr, fun _ htr => ?_⟩
      subst htr
      rw [hempty env rst]
      exact ⟨rfl, rfl⟩

/-- Concrete environment that routes directly to the degraded path. -/
def envDegradedOnly : OrchEnv :=
  { checkMacMini := .ok false, firebaseAvail := false,
    upload := .ok none, createJob := .ok none, send := .ok false,
    poll := .ok none, analyze := .ok none }

/-- Witness for C2: a concrete invocation that reaches the degraded path with
an empty transcript resolves to the no-transcript `failed` result. -/
theorem C2_orchestrator_resolves_witness :
    (processAudio envDegradedOnly 0 [] "j").1.status = .failed ∧
    (processAudio envDegradedOnly 0 [] "j").1.error
      = some "無轉錄文字可供分析" :=
  (C2_orchestrator_resolves envDegradedOnly 0 [] "j").2.2 (by decide) rfl

/-! ## Token estimation and truncation (part_000, lines 1722-1847)

`analyzeTranscript` builds `fullPrompt = template + "\n\n會議錄音轉錄內容：\n" +
cleanTranscript`, estimates its token count, and if the estimate exceeds
120000 analyzes `truncateText(cleanTranscript, 100000)` instead of the full
transcript.  Texts are `List Char` (UTF-16 code units).  `Math.ceil(c / 1.5)`
and `Math.ceil(o / 4)` are exact on these integer inputs, giving the natural
number forms below; the float comparison `lastPeriod > maxLength * 0.8` is
the exact rational comparison `5 * lastPeriod > 4 * maxLength` at the one
call site `maxLength = 100000`. -/

/-- The regex class `[一-鿿]` of `estimateTokenCount`. -/
def isCJK (c : Char) : Bool := decide (0x4e00 ≤ c.toNat ∧ c.toNat ≤ 0x9fff)

/-- `estimateTokenCount` (lines 1826-1832). -/
def estimateTokenCount (text : List Char) : Nat :=
  let chineseChars := (text.filter isCJK).length
  let otherChars := text.length - chineseChars
  (2 * chineseChars + 2) / 3 + (otherChars + 3) / 4

/-- JS `String.prototype.lastIndexOf` for a single character (`-1` if absent). -/
def lastIndexOfC (c : Char) : List Char → Int
  | [] => -1
  | a :: rest =>
    let r := lastIndexOfC c rest
    if 0 ≤ r then r + 1 else if a = c then 0 else -1

/-- `truncateText` (lines 1835-1847). -/
def truncateText (text : List Char) (maxLength : Nat) : List Char :=
  if text.length ≤ maxLength then text
  else
    let truncated := text.take maxLength
    let lastPeriod : Int :=
      max (lastIndexOfC '。' truncated) (lastIndexOfC '\n' truncated)
    if 5 * lastPeriod > 4 * (maxLength : Int) then
      truncated.take (lastPeriod + 1).toNat
    else truncated

/-- The fixed separator of `fullPrompt`. -/
def sepChars : List Char := "\n\n會議錄音轉錄內容：\n".data

/-- `fullPrompt = prompt + separator + cleanTranscript`. -/
def fullPrompt (prompt text : List Char) : List Char := prompt ++ sepChars ++ text

/-- `getPromptTemplate` (lines 1881-1893): six templates, unknown types fall
back to the summary template. -/
def getPromptTemplate (t : String) : List Char :=
  if t = "summary" then
    "請為以下會議錄音轉錄內容提供一個簡潔明確的摘要，包含主要討論點和結論：".data
  else if t = "action_items" then
    "請從以下會議錄音轉錄內容中提取出所有需要執行的行動項目，包含負責人和時間點：".data
  else if t = "key_decisions" then
    "請列出以下會議錄音轉錄內容中做出的所有重要決策和決定：".data
  else if t = "follow_up" then
    "請分析以下會議錄音轉錄內容，並建議需要後續追蹤的事項和時間點：".data
  else if t = "participants" then
    "請分析以下會議錄音轉錄內容，識別參與者並總結各人的主要觀點和貢獻：".data
  else if t = "sentiment" then
    "請分析以下會議錄音轉錄內容的整體情緒和氣氛，包含正面、負面或中性的討論：".data
  else
    "請為以下會議錄音轉錄內容提供一個簡潔明確的摘要，包含主要討論點和結論：".data

/-- The transcript text actually submitted for analysis by
`analyzeTranscript` (lines 1758-1780): untouched when the estimate is within
budget, else `truncateText(text, 100000)`. -/
def analysisInput (prompt text : List Char) : List Char :=
  if 120000 < estimateTokenCount (fullPrompt prompt text) then
    truncateText text 100000
  else text

/-- The boundary position `truncateText` inspects at the 100000 cap. -/
def truncLastBoundary (text : List Char) : Int :=
  max (lastIndexOfC '。' (text.take 100000)) (lastIndexOfC '\n' (text.take 100000))

lemma getPromptTemplate_length_le (t : String) :
    (getPromptTemplate t).length ≤ 50 := by
  unfold getPromptTemplate
  repeat' split
  all_goals decide

lemma estimate_le_length (l : List Char) :
    120000 < estimateTokenCount l → 179900 < l.length := by
  intro h
  have hc : (l.filter isCJK).length ≤ l.length := List.length_filter_le _ _
  have h' : 120000 < (2 * (l.filter isCJK).length + 2) / 3
      + ((l.length - (l.filter isCJK).length) + 3) / 4 := h
  omega

lemma estimate_big_text_long (prompt text : List Char) (hp : prompt.length ≤ 50)
    (h : 120000 < estimateTokenCount (fullPrompt prompt text)) :
    100000 < text.length := by
  have hlen := estimate_le_length _ h
  have : (fullPrompt prompt text).length = prompt.length + sepChars.length + text.length := by
    simp [fullPrompt]
    omega
  have hsep : sepChars.length = 12 := by decide
  omega

lemma lastIndexOfC_get (c : Char) (l : List Char) (h : 0 ≤ lastIndexOfC c l) :
    l[(lastIndexOfC c l).toNat]? = some c := by
  induction l with
  | nil => simp [lastIndexOfC] at h
  | cons a rest ih =>
    by_cases hr : 0 ≤ lastIndexOfC c rest
    · have hv : lastIndexOfC c (a :: rest) = lastIndexOfC c rest + 1 := by
        simp [lastIndexOfC, hr]
      rw [hv]
      have ht : (lastIndexOfC c rest + 1).toNat = (lastIndexOfC c rest).toNat + 1 := by
        omega
      rw [ht]
      simpa using ih hr
    · by_cases hac : a = c
      · have hv : lastIndexOfC c (a :: rest) = 0 := by
          simp [lastIndexOfC, hr, hac]
        rw [hv]
        simp [hac]
      · have hv : lastIndexOfC c (a :: rest) = -1 := by
          simp [lastIndexOfC, hr, hac]
        rw [hv] at h
        omega

lemma getLast?_take_succ (l : List Char) (i : Nat) (h : i < l.length) :
    (l.take (i + 1)).getLast? = l[i]? := by
  have h1 : (l.take (i + 1)).length = i + 1 := by
    rw [List.length_take]
    omega
  rw [List.getLast?_eq_getElem?, h1]
  simp only [Nat.add_sub_cancel]
  rw [List.getElem?_take_of_lt (by omega)]

lemma truncateText_take (text : List Char) (m : Nat) (h : m < text.length) :
    ∃ n, n ≤ m ∧ truncateText text m = text.take n := by
  unfold truncateText
  rw [if_neg (by omega)]
  dsimp only
  split
  · refine ⟨min ((max (lastIndexOfC '。' (text.take m))
        (lastIndexOfC '\n' (text.take m)) + 1).toNat) m, Nat.min_le_right _ _, ?_⟩
    rw [List.take_take]
  · exact ⟨m, Nat.le_refl m, rfl⟩

lemma snap_core (tr : List Char) (m : Nat)
    (hsnap : 5 * (max (lastIndexOfC '。' tr) (lastIndexOfC '\n' tr)) > 4 * (m : Int)) :
    (tr.take ((max (lastIndexOfC '。' tr) (lastIndexOfC '\n' tr) + 1).toNat)).getLast?
        = some '。' ∨
    (tr.take ((max (lastIndexOfC '。' tr) (lastIndexOfC '\n' tr) + 1).toNat)).getLast?
        = some '\n' := by
  have hlp0 : 0 ≤ max (lastIndexOfC '。' tr) (lastIndexOfC '\n' tr) := by omega
  have htn : (max (lastIndexOfC '。' tr) (lastIndexOfC '\n' tr) + 1).toNat
      = (max (lastIndexOfC '。' tr) (lastIndexOfC '\n' tr)).toNat + 1 := by omega
  have hget : tr[(max (lastIndexOfC '。' tr) (lastIndexOfC '\n' tr)).toNat]? = some '。' ∨
      tr[(max (lastIndexOfC '。' tr) (lastIndexOfC '\n' tr)).toNat]? = some '\n' := by
    rcases max_cases (lastIndexOfC '。' tr) (lastIndexOfC '\n' tr) with ⟨heq, _⟩ | ⟨heq, _⟩
    · left
      rw [heq]
      exact lastIndexOfC_get '。' tr (by omega)
    · right
      rw [heq]
      exact lastIndexOfC_get '\n' tr (by omega)
  have hlt : (max (lastIndexOfC '。' tr) (lastIndexOfC '\n' tr)).toNat < tr.length := by
    rcases hget with hg | hg
    · exact (List.getElem?_eq_some.mp hg).choose
    · exact (List.getElem?_eq_some.mp hg).choose
  rw [htn, getLast?_take_succ tr _ hlt]
  exact hget

lemma truncateText_snap_boundary (text : List Char) (m : Nat) (hm : m < text.length)
    (hsnap : 5 * (max (lastIndexOfC '。' (text.take m)) (lastIndexOfC '\n' (text.take m)))
      > 4 * (m : Int)) :
    (truncateText text m).getLast? = some '。' ∨
    (truncateText text m).getLast? = some '\n' := by
  have hres : truncateText text m
      = (text.take m).take ((max (lastIndexOfC '。' (text.take m))
          (lastIndexOfC '\n' (text.take m)) + 1).toNat) := by
    unfold truncateText
    rw [if_neg (by omega)]
    dsimp only
    rw [if_pos hsnap]
  rw [hres]
  exact snap_core (text.take m) m hsnap

/-- C4 (amended): the token estimate is `⌈cjk/1.5⌉ + ⌈other/4⌉` over the full
prompt; when it is within the 120000 budget the transcript is analyzed
untruncated, and when it exceeds the budget the analyzed text is a strict
prefix of the transcript cut at a fixed cap of 100000 characters — snapped
back to the last `。`/newline boundary only when that boundary lies past 80%
of the cap, and otherwise a hard cut at the cap, not at a sentence boundary.
The procedure is a pure function of the text, hence deterministic. -/
theorem C4_token_truncation (atype : String) (text : List Char) :
    (estimateTokenCount (fullPrompt (getPromptTemplate atype) text) ≤ 120000 →
      analysisInput (getPromptTemplate atype) text = text) ∧
    (120000 < estimateTokenCount (fullPrompt (getPromptTemplate atype) text) →
      100000 < text.length ∧
      analysisInput (getPromptTemplate atype) text = truncateText text 100000 ∧
      (∃ n, n ≤ 100000 ∧ n < text.length ∧
        analysisInput (getPromptTemplate atype) text = text.take n) ∧
      (5 * truncLastBoundary text > 400000 →
        ((analysisInput (getPromptTemplate atype) text).getLast? = some '。' ∨
         (analysisInput (getPromptTemplate atype) text).getLast? = some '\n')) ∧
      (¬ 5 * truncLastBoundary text > 400000 →
        analysisInput (getPromptTemplate atype) text = text.take 100000)) := by
  constructor
  · intro h
    unfold analysisInput
    rw [if_neg (by omega)]
  · intro h
    have hlen : 100000 < text.length :=
      estimate_big_text_long _ _ (getPromptTemplate_length_le atype) h
    have hai : analysisInput (getPromptTemplate atype) text = truncateText text 100000 := by
      unfold analysisInput
      rw [if_pos h]
    refine ⟨hlen, hai, ?_, ?_, ?_⟩
    · obtain ⟨n, hn, heq⟩ := truncateText_take text 100000 hlen
      exact ⟨n, hn, by omega, by rw [hai, heq]⟩
    · intro hsnap
      rw [hai]
      have hb : 5 * (max (lastIndexOfC '。' (text.take 100000))
          (lastIndexOfC '\n' (text.take 100000))) > 4 * ((100000 : Nat) : Int) := by
        have : truncLastBoundary text
            = max (lastIndexOfC '。' (text.take 100000))
                (lastIndexOfC '\n' (text.take 100000)) := rfl
        omega
      exact truncateText_snap_boundary text 100000 hlen hb
    · intro hno
      rw [hai]
      unfold truncateText
      rw [if_neg (by omega)]
      dsimp only
      rw [if_neg ?_]
      have : truncLastBoundary text
          = max (lastIndexOfC '。' (text.take 100000))
              (lastIndexOfC '\n' (text.take 100000)) := rfl
      omega

lemma lastIndexOfC_replicate (c a : Char) (h : a ≠ c) :
    ∀ n, lastIndexOfC c (List.replicate n a) = -1 := by
  intro n
  induction n with
  | zero => rfl
  | succ k ih => simp [List.replicate_succ, lastIndexOfC, ih, h]

lemma estimate_gt_of_cjk (l : List Char) (h : 180001 ≤ (l.filter isCJK).length) :
    120000 < estimateTokenCount l := by
  have h1 : estimateTokenCount l
      = (2 * (l.filter isCJK).length + 2) / 3
        + ((l.length - (l.filter isCJK).length) + 3) / 4 := rfl
  omega

lemma lastIndexOfC_cons (c a : Char) (l : List Char) :
    lastIndexOfC c (a :: l)
      = (if 0 ≤ lastIndexOfC c l then lastIndexOfC c l + 1
         else if a = c then 0 else -1) := rfl

/-- C4 counterexample: for the transcript `'。'` followed by 180001 CJK
characters, the estimate exceeds the budget, and the only sentence/paragraph
boundary sits at index 0 — so a cut "at the last boundary before the budget"
would keep only `['。']` — yet the code analyzes the hard 100000-character
prefix, which ends in `'中'`, not at a boundary. -/
theorem C4_counterexample :
    120000 < estimateTokenCount (fullPrompt (getPromptTemplate "summary")
        ('。' :: List.replicate 180001 '中')) ∧
    analysisInput (getPromptTemplate "summary") ('。' :: List.replicate 180001 '中')
      = '。' :: List.replicate 99999 '中' ∧
    (analysisInput (getPromptTemplate "summary")
        ('。' :: List.replicate 180001 '中')).getLast? = some '中' ∧
    analysisInput (getPromptTemplate "summary") ('。' :: List.replicate 180001 '中')
      ≠ ('。' :: List.replicate 180001 '中').take 1 := by
  have hc : isCJK '中' = true := by decide
  have h0 : isCJK '。' = false := by decide
  have hfrep : List.filter isCJK (List.replicate 180001 '中')
      = List.replicate 180001 '中' := by
    rw [List.filter_replicate, if_pos hc]
  have hftext : (List.filter isCJK ('。' :: List.replicate 180001 '中')).length
      = 180001 := by
    rw [List.filter_cons, hfrep]
    rw [if_neg (by rw [h0]; exact Bool.false_ne_true)]
    rw [List.length_replicate]
  have hest : 120000 < estimateTokenCount (fullPrompt (getPromptTemplate "summary")
      ('。' :: List.replicate 180001 '中')) := by
    have hmono : 180001
        ≤ ((fullPrompt (getPromptTemplate "summary")
            ('。' :: List.replicate 180001 '中')).filter isCJK).length := by
      unfold fullPrompt
      rw [List.filter_append, List.filter_append, List.length_append,
        List.length_append, hftext]
      omega
    exact estimate_gt_of_cjk _ hmono
  have hlen : ('。' :: List.replicate 180001 '中').length = 180002 := by
    rw [List.length_cons, List.length_replicate]
  have htake : ('。' :: List.replicate 180001 '中').take 100000
      = '。' :: List.replicate 99999 '中' := by
    show List.take (99999 + 1) _ = _
    rw [List.take_succ_cons, List.take_replicate]
    norm_num
  have hL1 : lastIndexOfC '。' ('。' :: List.replicate 99999 '中') = 0 := by
    have h1 := lastIndexOfC_replicate '。' '中' (by decide) 99999
    rw [lastIndexOfC_cons, h1]
    rw [if_neg (by norm_num), if_pos rfl]
  have hL2 : lastIndexOfC '\n' ('。' :: List.replicate 99999 '中') = -1 := by
    have h1 := lastIndexOfC_replicate '\n' '中' (by decide) 99999
    rw [lastIndexOfC_cons, h1]
    rw [if_neg (by norm_num), if_neg (by decide)]
  have htrunc : truncateText ('。' :: List.replicate 180001 '中') 100000
      = '。' :: List.replicate 99999 '中' := by
    unfold truncateText
    rw [if_neg (by rw [hlen]; omega)]
    dsimp only
    rw [htake, hL1, hL2]
    have hmax : max (0 : Int) (-1) = 0 := by norm_num
    rw [hmax, if_neg (by norm_num)]
  have hana : analysisInput (getPromptTemplate "summary")
      ('。' :: List.replicate 180001 '中') = '。' :: List.replicate 99999 '中' := by
    unfold analysisInput
    rw [if_pos hest, htrunc]
  have hlast : ('。' :: List.replicate 99999 '中').getLast? = some '中' := by
    have h9 : List.replicate 99999 '中' = List.replicate 99998 '中' ++ ['中'] :=
      List.replicate_succ' 99998 '中'
    rw [h9, ← List.cons_append, List.getLast?_concat]
  have htake1 : ('。' :: List.replicate 180001 '中').take 1 = ['。'] := by
    show List.take (0 + 1) _ = _
    rw [List.take_succ_cons, List.take_zero]
  refine ⟨hest, hana, by rw [hana, hlast], ?_⟩
  rw [hana, htake1]
  intro hbad
  have hlen2 := congrArg List.length hbad
  rw [List.length_cons, List.length_replicate, List.length_singleton] at hlen2
  omega

/-- Witness for C4 at a small transcript within the budget. -/
theorem C4_token_truncation_witness :
    estimateTokenCount (fullPrompt (getPromptTemplate "summary") ['a']) ≤ 120000 ∧
    analysisInput (getPromptTemplate "summary") ['a'] = ['a'] :=
  ⟨by decide, (C4_token_truncation "summary" ['a']).1 (by decide)⟩

/-! ## Speaker statistics (`displaySpeakerInfo`, part_000 lines 452-494)

Durations are summed per speaker into an insertion-ordered map; each
percentage shown is `((time / totalTime) * 100).toFixed(1)` when the total is
positive and `'0'` otherwise.  `toFixed(1)` rounds to the nearest tenth,
ties picking the larger value, which is Lean's `round` on the scaled value. -/

/-- `toFixed(1)` as a rational: round to the nearest tenth. -/
def roundTenth (q : ℚ) : ℚ := ((round (10 * q) : ℤ) : ℚ) / 10

/-- A diarization segment as consumed by `displaySpeakerInfo` (`speaker`,
`start`, `end` may all be absent, defaulted via `|| 0` / `'UNKNOWN'`). -/
structure SpeakerSeg where
  speaker : Option String := none
  start : Option ℚ := none
  endT : Option ℚ := none

/-- One `speakerStats` map update (`Map.has`/`Map.set` on insertion-ordered
association lists). -/
def addDuration (m : List (String × ℚ)) (sp : String) (d : ℚ) : List (String × ℚ) :=
  if m.any (fun p => p.1 = sp) then
    m.map (fun p => if p.1 = sp then (p.1, p.2 + d) else p)
  else m ++ [(sp, d)]

/-- The `speakers.forEach` aggregation loop. -/
def speakerDurations (segs : List SpeakerSeg) : List (String × ℚ) :=
  segs.foldl
    (fun m seg =>
      addDuration m (seg.speaker.getD "UNKNOWN") (seg.endT.getD 0 - seg.start.getD 0))
    []

/-- `totalTime = Array.from(speakerStats.values()).reduce((a, b) => a + b, 0)`. -/
def totalTime (m : List (String × ℚ)) : ℚ := (m.map Prod.snd).sum

/-- The displayed per-speaker percentage. -/
def pctOf (time total : ℚ) : ℚ :=
  if 0 < total then roundTenth (time / total * 100) else 0

/-- All displayed percentages of one `displaySpeakerInfo` run. -/
def percentages (segs : List SpeakerSeg) : List ℚ :=
  (speakerDurations segs).map
    (fun p => pctOf p.2 (totalTime (speakerDurations segs)))

lemma roundTenth_err (q : ℚ) : |roundTenth q - q| ≤ 1 / 20 := by
  have h := abs_sub_round (10 * q)
  rw [abs_sub_comm] at h
  have h2 : roundTenth q - q = (((round (10 * q) : ℤ) : ℚ) - 10 * q) / 10 := by
    unfold roundTenth
    ring
  rw [h2, abs_div]
  rw [abs_of_pos (by norm_num : (0 : ℚ) < 10)]
  linarith

lemma sum_roundTenth_err (l : List (String × ℚ)) (f : String × ℚ → ℚ) :
    |(l.map (fun p => roundTenth (f p))).sum - (l.map f).sum|
      ≤ l.length * (1 / 20) := by
  induction l with
  | nil => simp
  | cons a rest ih =>
    simp only [List.map_cons, List.sum_cons, List.length_cons]
    have h1 := roundTenth_err (f a)
    calc |roundTenth (f a) + (rest.map (fun p => roundTenth (f p))).sum
            - (f a + (rest.map f).sum)|
        = |(roundTenth (f a) - f a)
            + ((rest.map (fun p => roundTenth (f p))).sum - (rest.map f).sum)| := by
          ring_nf
      _ ≤ |roundTenth (f a) - f a|
            + |(rest.map (fun p => roundTenth (f p))).sum - (rest.map f).sum| :=
          abs_add _ _
      _ ≤ 1 / 20 + rest.length * (1 / 20) := by
          exact add_le_add h1 ih
      _ = ((rest.length : ℚ) + 1) * (1 / 20) := by ring
      _ = ((rest.length + 1 : Nat) : ℚ) * (1 / 20) := by push_cast; ring

lemma exact_pct_sum (m : List (String × ℚ)) (h : 0 < totalTime m) :
    (m.map (fun p => p.2 / totalTime m * 100)).sum = 100 := by
  have hne : totalTime m ≠ 0 := ne_of_gt h
  have hfun : (fun p : String × ℚ => p.2 / totalTime m * 100)
      = (fun p : String × ℚ => p.2 * (100 / totalTime m)) := by
    funext p
    field_simp
  rw [hfun, List.sum_map_mul_right]
  show totalTime m * (100 / totalTime m) = 100
  field_simp

/-- C6 (amended): when the total duration is positive the exact
(pre-rounding) percentages sum to exactly 100, and the displayed
tenth-rounded percentages sum to 100 within `n/20` where `n` is the number of
speakers — which can exceed the claimed 0.1 tolerance once there are more
than two speakers (see the counterexample); when the total is not positive
every displayed percentage is 0. -/
theorem C6_percentage_sum (segs : List SpeakerSeg) :
    (0 < totalTime (speakerDurations segs) →
      ((speakerDurations segs).map
        (fun p => p.2 / totalTime (speakerDurations segs) * 100)).sum = 100) ∧
    (¬ 0 < totalTime (speakerDurations segs) →
      ∀ q ∈ percentages segs, q = 0) ∧
    (0 < totalTime (speakerDurations segs) →
      |(percentages segs).sum - 100|
        ≤ (speakerDurations segs).length * (1 / 20)) := by
  refine ⟨exact_pct_sum _, fun hT q hq => ?_, fun hT => ?_⟩
  · unfold percentages at hq
    obtain ⟨p, _, hpq⟩ := List.mem_map.mp hq
    rw [← hpq]
    unfold pctOf
    rw [if_neg hT]
  · have hexact := exact_pct_sum _ hT
    have hpcts : percentages segs
        = (speakerDurations segs).map
            (fun p => roundTenth (p.2 / totalTime (speakerDurations segs) * 100)) := by
      unfold percentages pctOf
      exact List.map_congr_left (fun p _ => by rw [if_pos hT])
    rw [hpcts]
    calc |((speakerDurations segs).map
            (fun p => roundTenth (p.2 / totalTime (speakerDurations segs) * 100))).sum - 100|
        = |((speakerDurations segs).map
              (fun p => roundTenth (p.2 / totalTime (speakerDurations segs) * 100))).sum
            - ((speakerDurations segs).map
              (fun p => p.2 / totalTime (speakerDurations segs) * 100)).sum| := by
          rw [hexact]
      _ ≤ (speakerDurations segs).length * (1 / 20) :=
          sum_roundTenth_err (speakerDurations segs) _

/-- Six equal-duration speakers: the statistics input of the C6 counterexample. -/
def sixSegs : List SpeakerSeg :=
  [{ speaker := some "S0", start := some 0, endT := some 1 },
   { speaker := some "S1", start := some 0, endT := some 1 },
   { speaker := some "S2", start := some 0, endT := some 1 },
   { speaker := some "S3", start := some 0, endT := some 1 },
   { speaker := some "S4", start := some 0, endT := some 1 },
   { speaker := some "S5", start := some 0, endT := some 1 }]

/-- C6 counterexample: with six speakers of equal duration the displayed
(tenth-rounded) percentages are six times 16.7, summing to 100.2 — off by
0.2, outside the claimed 0.1 tolerance. -/
theorem C6_counterexample :
    (percentages sixSegs).sum = 501 / 5 ∧
    ¬ |(percentages sixSegs).sum - 100| ≤ 1 / 10 := by
  have hdur : speakerDurations sixSegs
      = [("S0", 1), ("S1", 1), ("S2", 1), ("S3", 1), ("S4", 1), ("S5", 1)] := by
    norm_num [speakerDurations, sixSegs, addDuration,
      (show ("S0" : String) ≠ "S1" by decide),
      (show ("S0" : String) ≠ "S2" by decide),
      (show ("S1" : String) ≠ "S2" by decide),
      (show ("S0" : String) ≠ "S3" by decide),
      (show ("S1" : String) ≠ "S3" by decide),
      (show ("S2" : String) ≠ "S3" by decide),
      (show ("S0" : String) ≠ "S4" by decide),
      (show ("S1" : String) ≠ "S4" by decide),
      (show ("S2" : String) ≠ "S4" by decide),
      (show ("S3" : String) ≠ "S4" by decide),
      (show ("S0" : String) ≠ "S5" by decide),
      (show ("S1" : String) ≠ "S5" by decide),
      (show ("S2" : String) ≠ "S5" by decide),
      (show ("S3" : String) ≠ "S5" by decide),
      (show ("S4" : String) ≠ "S5" by decide)]
  have htot : totalTime (speakerDurations sixSegs) = 6 := by
    rw [hdur]
    norm_num [totalTime]
  have hone : pctOf 1 6 = 167 / 10 := by
    norm_num [pctOf, roundTenth, round_eq]
  have hpct : percentages sixSegs
      = [167 / 10, 167 / 10, 167 / 10, 167 / 10, 167 / 10, 167 / 10] := by
    unfold percentages
    rw [htot, hdur]
    simp only [List.map_cons, List.map_nil]
    rw [hone]
  have hsum : ([167 / 10, 167 / 10, 167 / 10, 167 / 10, 167 / 10, 167 / 10]
      : List ℚ).sum = 501 / 5 := by
    norm_num
  rw [hpct, hsum]
  have hd : (501 : ℚ) / 5 - 100 = 1 / 5 := by norm_num
  rw [hd, abs_of_pos (by norm_num : (0 : ℚ) < 1 / 5)]
  norm_num

/-- One-speaker input used by the C6 witness. -/
def oneSeg : List SpeakerSeg :=
  [{ speaker := some "A", start := some 0, endT := some 1 }]

/-- Witness for C6 at a concrete one-speaker input with positive total. -/
theorem C6_percentage_sum_witness :
    0 < totalTime (speakerDurations oneSeg) ∧
    |(percentages oneSeg).sum - 100|
      ≤ (speakerDurations oneSeg).length * (1 / 20) :=
  ⟨by simp [totalTime, speakerDurations, oneSeg, addDuration],
   (C6_percentage_sum oneSeg).2.2
     (by simp [totalTime, speakerDurations, oneSeg, addDuration])⟩

/-! ## Capture session lifecycle (enhanced-recorder.ts, lines 146-244)

`startRecording` bails out with `false` before touching any state when
already recording; otherwise it resets chunks/transcript, requests the
microphone (which may throw — caught, returning `false` with the reset
state), and on success installs the stream and sets the flag.
`stopRecording` bails out with `null` before touching any state when not
recording; otherwise it clears the flag and stream and returns the
concatenated chunks. -/

structure RecorderState where
  isRecording : Bool
  audioChunks : List Nat
  transcript : List Seg
  audioStream : Option Nat
  recordingStartTime : Int
deriving DecidableEq, Repr

structure StartEnv where
  now : Int
  getUserMedia : Except String Nat

def startRecording (s : RecorderState) (env : StartEnv) : Bool × RecorderState :=
  if s.isRecording then (false, s)
  else
    let s1 : RecorderState :=
      { s with audioChunks := [], transcript := [], recordingStartTime := env.now }
    match env.getUserMedia with
    | .error _ => (false, s1)
    | .ok stream => (true, { s1 with audioStream := some stream, isRecording := true })

def stopRecording (s : RecorderState) : Option (List Nat) × RecorderState :=
  if ¬ s.isRecording then (none, s)
  else (some s.audioChunks, { s with isRecording := false, audioStream := none })

/-- C7: at most one capture session is active — `startRecording` while
recording returns `false` and leaves the whole state (chunks, transcript,
stream, flag) unchanged, and `stopRecording` while not recording returns
`null` as a no-op, leaving the state unchanged. -/
theorem C7_session_guards (s : RecorderState) (env : StartEnv) :
    (s.isRecording = true → startRecording s env = (false, s)) ∧
    (s.isRecording = false → stopRecording s = (none, s)) := by
  constructor
  · intro h
    unfold startRecording
    rw [if_pos h]
  · intro h
    unfold stopRecording
    rw [if_pos (by rw [h]; exact Bool.false_ne_true)]

/-- A concrete in-progress recording state. -/
def recBusy : RecorderState :=
  { isRecording := true, audioChunks := [7], transcript := [],
    audioStream := some 1, recordingStartTime := 5 }

/-- A concrete idle state. -/
def recIdle : RecorderState :=
  { isRecording := false, audioChunks := [7], transcript := [],
    audioStream := none, recordingStartTime := 5 }

/-- Witness for C7 at concrete recording/idle states. -/
theorem C7_session_guards_witness :
    startRecording recBusy { now := 9, getUserMedia := .ok 2 } = (false, recBusy) ∧
    stopRecording recIdle = (none, recIdle) :=
  ⟨(C7_session_guards recBusy { now := 9, getUserMedia := .ok 2 }).1 rfl,
   (C7_session_guards recIdle { now := 9, getUserMedia := .ok 2 }).2 rfl⟩

/-! ## Share/copy formatters (part_000, lines 2016-2034)

`formatShareContent` caps the embedded analysis at 800 characters and adds a
truncation marker; `formatCopyContent` embeds the full text.  Both take the
current time as rendered by `toLocaleString` — modelled as an explicit
argument, since the code samples the clock, not the analysis data. -/

def shareHeaderPre : List Char := "🤖 AI會議分析結果 - ".data

def shareMarker : List Char := "...\n\n📄 完整內容請查看原始分析結果".data

def shareFooterA : List Char := "\n\n📅 分析時間：".data

def shareFooterB : List Char := "\n🔗 使用工具：阿玩AI語音會議分析工具".data

def twoNl : List Char := "\n\n".data

def formatShareContent (result analysisType currentTime : List Char) : List Char :=
  let content := if 800 < result.length then result.take 800 ++ shareMarker else result
  shareHeaderPre ++ analysisType ++ twoNl ++ content
    ++ shareFooterA ++ currentTime ++ shareFooterB

def formatCopyContent (result analysisType currentTime : List Char) : List Char :=
  shareHeaderPre ++ analysisType ++ twoNl ++ result
    ++ shareFooterA ++ currentTime ++ shareFooterB

/-- C9: the share formatter is a pure function of
`(analysisText, analysisType, timestamp)` — two calls on the same input are
byte-identical — its output length is bounded by the 800-character cap plus
the fixed template parts, the capped content (800-prefix plus marker) is
embedded verbatim when the analysis is longer than 800 characters, the share
and copy outputs coincide when it is not, and the copy formatter always
embeds the full uncapped analysis text. -/
theorem C9_share_formatters (r a t : List Char) :
    formatShareContent r a t = formatShareContent r a t ∧
    (formatShareContent r a t).length
      ≤ shareHeaderPre.length + a.length + twoNl.length + 800 + shareMarker.length
        + shareFooterA.length + t.length + shareFooterB.length ∧
    (800 < r.length →
      ∃ u v, formatShareContent r a t = u ++ (r.take 800 ++ shareMarker) ++ v) ∧
    (r.length ≤ 800 → formatShareContent r a t = formatCopyContent r a t) ∧
    (∃ u v, formatCopyContent r a t = u ++ r ++ v) := by
  refine ⟨rfl, ?_, fun h => ?_, fun h => ?_, ?_⟩
  · unfold formatShareContent
    by_cases h : 800 < r.length
    · rw [if_pos h]
      simp only [List.length_append, List.length_take]
      omega
    · rw [if_neg h]
      simp only [List.length_append]
      omega
  · refine ⟨shareHeaderPre ++ a ++ twoNl, shareFooterA ++ t ++ shareFooterB, ?_⟩
    unfold formatShareContent
    rw [if_pos h]
    simp [List.append_assoc]
  · unfold formatShareContent formatCopyContent
    rw [if_neg (by omega)]
  · refine ⟨shareHeaderPre ++ a ++ twoNl, shareFooterA ++ t ++ shareFooterB, ?_⟩
    unfold formatCopyContent
    simp [List.append_assoc]

/-- Witness for C9 at a concrete short analysis text. -/
theorem C9_share_formatters_witness :
    ('h' :: ['i']).length ≤ 800 ∧
    formatShareContent ['h', 'i'] ['A'] ['T'] = formatCopyContent ['h', 'i'] ['A'] ['T'] :=
  ⟨by decide, (C9_share_formatters ['h', 'i'] ['A'] ['T']).2.2.2.1 (by decide)⟩
